import Mathlib

/-
Shallow embedding of the github-star-counts repository (three near-duplicate
fetch scripts: `src/fetch-repos-stars.js`, `src/unnamed/part_000`,
`src/unnamed/part_001`).

The scripts partition the star-count axis into sub-ranges whose search query
stays within the 1000-result cap, walk paginated results following
Link-header `rel="next"` entries, filter and project each raw item, and (in
the part_001 variant) sort the accumulated records by stars descending.

Network probes are modelled by an oracle mapping a star range `(low, high)`
to the reported `total_count` of the search response; `none` models an
undefined total (transport/parse failure).  JS numbers are modelled as `ℤ`
(all arithmetic in the scripts is integer-valued).  Loops are modelled with
explicit fuel; running out of fuel is observably distinct from every real
exit of the loop.
-/

namespace GithubStars

/-- A probe oracle: maps the candidate range bounds to the `total_count`
reported by the search endpoint, `none` when `data.total_count` is
`undefined` (transport or parse failure). -/
abbrev Oracle := ℤ → ℤ → Option ℤ

/-- How the shrink loop of the part_000/part_001 variants exited. -/
inductive ExitKind where
  | accepted
  | guardStop
  | condExit
  deriving DecidableEq, Repr

/-- The candidate high bound of part_000/part_001:
`Math.max(Math.min(STAR_MAX, starCutoff + starCountRange - 1), starCutoff)`. -/
def clampedHigh (M cutoff range : ℤ) : ℤ :=
  max (min M (cutoff + range - 1)) cutoff

/-- The shrink loop of `fetchAllRepos` in `src/unnamed/part_001`
(`do { probe; accept if total 0 or <= 1000; range -= 300; pin guard }
while (data.total_count > 1000)`), with `M = STAR_MAX`,
`INITIAL_STAR_RANGE = 3000` supplied as the starting `range`,
`STAR_RANGE_DECREMENT = 300`, `MAX_RESULTS_PER_SEARCH = 1000`.
`Sum.inl range` means the loop is still running after the given fuel
(carrying the current step); `Sum.inr (range, low, high, k)` is a real exit.
Note the do-while condition `data.total_count > 1000` is false in JS when
`total_count` is `undefined`, so an undefined probe exits the loop after one
decrement (`ExitKind.condExit`). -/
def shrink701 (M : ℤ) (o : Oracle) (cutoff : ℤ) : ℕ → ℤ → ℤ ⊕ (ℤ × ℤ × ℤ × ExitKind)
  | 0, range => Sum.inl range
  | fuel + 1, range =>
    let high := clampedHigh M cutoff range
    match o cutoff high with
    | some t =>
      if t = 0 ∨ t ≤ 1000 then Sum.inr (range, cutoff, high, ExitKind.accepted)
      else
        let r2 := range - 300
        let h2 := clampedHigh M cutoff r2
        if cutoff = h2 then Sum.inr (r2, cutoff, h2, ExitKind.guardStop)
        else shrink701 M o cutoff fuel r2
    | none =>
      let r2 := range - 300
      let h2 := clampedHigh M cutoff r2
      if cutoff = h2 then Sum.inr (r2, cutoff, h2, ExitKind.guardStop)
      else Sum.inr (r2, cutoff, h2, ExitKind.condExit)

/-- The shrink loop of `fetchAllRepos` in `src/unnamed/part_000`
(`while (total > 1000 || total === undefined) { probe; accept if 0 or
<= 1000; range -= 300; pin guard }`).  Same constants as part_001 except
`STAR_MAX = 500000` (here the parameter `M`).  An undefined total keeps the
while condition true, so the loop shrinks and retries. -/
def shrink700 (M : ℤ) (o : Oracle) (cutoff : ℤ) : ℕ → ℤ → ℤ ⊕ (ℤ × ℤ × ℤ × ExitKind)
  | 0, range => Sum.inl range
  | fuel + 1, range =>
    let high := clampedHigh M cutoff range
    match o cutoff high with
    | some t =>
      if t = 0 ∨ t ≤ 1000 then Sum.inr (range, cutoff, high, ExitKind.accepted)
      else
        let r2 := range - 300
        let h2 := clampedHigh M cutoff r2
        if cutoff = h2 then Sum.inr (r2, cutoff, h2, ExitKind.guardStop)
        else shrink700 M o cutoff fuel r2
    | none =>
      let r2 := range - 300
      let h2 := clampedHigh M cutoff r2
      if cutoff = h2 then Sum.inr (r2, cutoff, h2, ExitKind.guardStop)
      else shrink700 M o cutoff fuel r2

/-- The candidate high bound of `src/fetch-repos-stars.js`:
`Math.min(STAR_MAX, starCutoff + starCountRange - 1)` with
`STAR_MAX = 6000` (no clamp to the cutoff). -/
def frsHigh (cutoff range : ℤ) : ℤ :=
  min 6000 (cutoff + range - 1)

/-- The shrink loop of `fetchAllRepos` in `src/fetch-repos-stars.js`
(`while (total > 1000 || total === undefined) { probe; if (total <= 1000)
break; range -= 100; }`) with `INITIAL_STAR_RANGE = 1000`,
`STAR_RANGE_DECREMENT = 100`, `MAX_RESULTS_PER_SEARCH = 1000`, and no pin
guard.  `Sum.inl range` means the loop is still running after the given
fuel; the only real exit is the accept break (`Sum.inr`).  An undefined
total (`undefined <= 1000` is false in JS) shrinks and retries. -/
def shrinkFRS (o : Oracle) (cutoff : ℤ) : ℕ → ℤ → ℤ ⊕ (ℤ × ℤ × ℤ)
  | 0, range => Sum.inl range
  | fuel + 1, range =>
    let high := frsHigh cutoff range
    match o cutoff high with
    | some t =>
      if t ≤ 1000 then Sum.inr (range, cutoff, high)
      else shrinkFRS o cutoff fuel (range - 100)
    | none => shrinkFRS o cutoff fuel (range - 100)

/-- The outer loop of part_001's `fetchAllRepos`, projected onto the range
planning and cursor advance (`starCutoff += starCountRange;
if (starCutoff > STAR_MAX) break;`); the page walk does not influence the
ranges.  Returns the accepted ranges in order, the final cursor, and whether
the loop reached its break within the given fuel. -/
def runRanges701 (M : ℤ) (o : Oracle) : ℕ → ℤ → List (ℤ × ℤ) × ℤ × Bool
  | 0, cutoff => ([], cutoff, false)
  | fuel + 1, cutoff =>
    match shrink701 M o cutoff 11 3000 with
    | Sum.inl _ => ([], cutoff, false)
    | Sum.inr (range, low, high, _) =>
      let c2 := cutoff + range
      if M < c2 then ([(low, high)], c2, true)
      else
        let rest := runRanges701 M o fuel c2
        ((low, high) :: rest.1, rest.2)

/-- A raw search item as consumed by `filterResponseData` (the fields the
scripts destructure from `responseJson.items`). -/
structure RawItem where
  id : ℤ
  full_name : String
  html_url : String
  description : Option String
  language : Option String
  archived : Bool
  disabled : Bool
  visibility : String
  forks_count : ℤ
  stargazers_count : ℤ
  watchers_count : ℤ
  open_issues_count : ℤ
  topics : List String
  contributors_url : String
  deriving DecidableEq, Repr

/-- The normalized record produced by `filterResponseData` (identical in all
three scripts): the projection handed to the upsert boundary. -/
structure Repo where
  github_id : ℤ
  full_name : String
  html_url : String
  description : Option String
  language : Option String
  forks : ℤ
  stars : ℤ
  watchers : ℤ
  open_issues : ℤ
  topics : List String
  contributors_url : String
  deriving DecidableEq, Repr

/-- `filterResponseData` from the scripts: keep items that are
`!archived && !disabled && visibility === 'public'`, project each to the
fixed field set. -/
def filterResponseData (items : List RawItem) : List Repo :=
  (items.filter fun r => !r.archived && !r.disabled && r.visibility == "public").map
    fun r =>
      { github_id := r.id
        full_name := r.full_name
        html_url := r.html_url
        description := r.description
        language := r.language
        forks := r.forks_count
        stars := r.stargazers_count
        watchers := r.watchers_count
        open_issues := r.open_issues_count
        topics := r.topics
        contributors_url := r.contributors_url }

/-- JS whitespace test used by `String.prototype.trim` restricted to the
characters that can occur here. -/
def isWs (c : Char) : Bool :=
  c == ' ' || c == '\t' || c == '\n' || c == '\r'

/-- `String.prototype.trim` on a character list: strip whitespace from both
ends. -/
def trimList (s : List Char) : List Char :=
  (((s.dropWhile isWs).reverse).dropWhile isWs).reverse

/-- `String.prototype.split(sep)` for a one-character separator, on character
lists.  Like in JS, the result is always non-empty and preserves empty
fields. -/
def splitOnChar (c : Char) : List Char → List (List Char)
  | [] => [[]]
  | x :: xs =>
    match splitOnChar c xs with
    | [] => [[x]]
    | h :: t => if x = c then [] :: h :: t else (x :: h) :: t

/-- The characters of the string `rel="next"` compared against by the
pagination loop. -/
def relNextChars : List Char :=
  ['r', 'e', 'l', '=', '"', 'n', 'e', 'x', 't', '"']

/-- One pass of the `for (const link of links)` loop in
`fetchRepositoriesWithPagination`: trim the entry, split on `;`, build
`new URL(parts[0].slice(1, -1))` (modelled by the abstract `normalize`,
`none` = the constructor throws), compare `parts[1].trim()` with
`rel="next"`, and return the first matching href.  `Except.error` models the
thrown `TypeError` when `parts[1]` is `undefined` or the URL constructor
throws; `Except.ok none` models falling off the loop with no next link. -/
def findNext (normalize : List Char → Option (List Char)) :
    List (List Char) → Except Unit (Option (List Char))
  | [] => Except.ok none
  | link :: rest =>
    match splitOnChar ';' (trimList link) with
    | p0 :: p1 :: _ =>
      match normalize ((p0.drop 1).dropLast) with
      | none => Except.error ()
      | some href =>
        if trimList p1 = relNextChars then Except.ok (some href)
        else findNext normalize rest
    | _ => Except.error ()

/-- One page of a search response as consumed by the pagination loop: the
raw items of the body and the `Link` response header (if present). -/
structure Page where
  items : List RawItem
  link : Option (List Char)

/-- `fetchRepositoriesWithPagination` (identical logic in all three
scripts): follow the chain of `rel="next"` links, filtering and normalizing
each page's items.  `server` models `fetch` + `response.json()` keyed by the
request URL (`none` = the request fails or does not parse); `normalize`
models `new URL(u).href`.  The outer `none` means the fuel ran out;
`some (Except.error ())` is the catch branch (the accumulated records are
discarded and `process.exitCode` is set); `some (Except.ok (repos, n))` is a
successful walk of `n` pages. -/
def fetchRepositoriesWithPagination (server : List Char → Option Page)
    (normalize : List Char → Option (List Char)) :
    ℕ → Option (List Char) → Option (Except Unit (List Repo × ℕ))
  | _, none => some (Except.ok ([], 0))
  | 0, some _ => none
  | fuel + 1, some url =>
    match server url with
    | none => some (Except.error ())
    | some page =>
      let here := filterResponseData page.items
      let nextR : Except Unit (Option (List Char)) :=
        match page.link with
        | none => Except.ok none
        | some lh => findNext normalize (splitOnChar ',' lh)
      match nextR with
      | Except.error _ => some (Except.error ())
      | Except.ok next =>
        match fetchRepositoriesWithPagination server normalize fuel next with
        | none => none
        | some (Except.error e) => some (Except.error e)
        | some (Except.ok (rest, n)) => some (Except.ok (here ++ rest, n + 1))

/-- Rendering of one RFC 8288-style Link-header entry
`<url>; rel="name"` as produced by the platform and consumed by the
pagination loop. -/
def renderEntry (u relName : List Char) : List Char :=
  ('<' :: u ++ ['>']) ++ ';' :: ' ' :: (['r', 'e', 'l', '=', '"'] ++ relName ++ ['"'])

/-- The relation name `next`. -/
def nextName : List Char := ['n', 'e', 'x', 't']

/-- The `rel="name"` part of a rendered Link-header entry. -/
def relPart (relName : List Char) : List Char :=
  ['r', 'e', 'l', '=', '"'] ++ relName ++ ['"']

/-- Side conditions on a URL placed inside a Link-header entry so that the
script's `split` calls recover it: no separator characters. -/
def entryUrlOk (u : List Char) : Prop := ';' ∉ u ∧ ',' ∉ u

/-- Side conditions on a relation name placed inside a Link-header entry. -/
def relNameOk (r : List Char) : Prop := ';' ∉ r ∧ ',' ∉ r

/-- A simulated link-header chain: starting from the normalized URL `u`, the
server serves the given page item batches in order; every page but the last
carries a single `<url>; rel="next"` entry whose URL normalizes and leads to
the next page, and the last page carries either no `Link` header or a
single well-formed entry whose relation is not `next`. -/
def chainOk (server : List Char → Option Page)
    (normalize : List Char → Option (List Char)) :
    List Char → List (List RawItem) → Prop
  | _, [] => False
  | u, [items] =>
    server u = some ⟨items, none⟩ ∨
      ∃ u' r w, entryUrlOk u' ∧ relNameOk r ∧ r ≠ nextName ∧
        normalize u' = some w ∧ server u = some ⟨items, some (renderEntry u' r)⟩
  | u, items :: rest =>
    ∃ u' v, entryUrlOk u' ∧ server u = some ⟨items, some (renderEntry u' nextName)⟩ ∧
      normalize u' = some v ∧ chainOk server normalize v rest

/-- A simulated chain that fails: the batches in the list are served
successfully with `rel="next"` links, and the page after them fails to
fetch or parse (`server` returns `none`). -/
def failChain (server : List Char → Option Page)
    (normalize : List Char → Option (List Char)) :
    List Char → List (List RawItem) → Prop
  | u, [] => server u = none
  | u, items :: rest =>
    ∃ u' v, entryUrlOk u' ∧ server u = some ⟨items, some (renderEntry u' nextName)⟩ ∧
      normalize u' = some v ∧ failChain server normalize v rest

/-- `waitForRateLimitReset` from `src/unnamed/part_001`, as the number of
milliseconds passed to `sleep`: it waits when
`(remaining < 12 && option === 1) || (remaining === 0 && option === 2)`,
and the slept duration is `new Date(reset * 1000) - Date.now()` milliseconds
(`reset` is a Unix timestamp in seconds, `nowMs` the current time in
milliseconds); otherwise it does not suspend at all (0 ms). -/
def waitForRateLimitReset (remaining reset nowMs opt : ℤ) : ℤ :=
  if (remaining < 12 ∧ opt = 1) ∨ (remaining = 0 ∧ opt = 2) then
    reset * 1000 - nowMs
  else 0

/-- The comparator-induced order of part_001's final
`repoData.sort((a, b) => b.stars - a.stars)`: a stable sort placing larger
star counts first. -/
def sortByStarsDesc (l : List Repo) : List Repo :=
  l.mergeSort fun a b => decide (b.stars ≤ a.stars)

/-- The outer loop of part_001's `fetchAllRepos` with the page walk
abstracted into `collect` (the composition of the query-URL construction and
`fetchRepositoriesWithPagination` over the accepted range; `none` models a
collector failure, which in the script makes `repoData.push(...undefined)`
throw into the outer catch, so the run returns `undefined`).  On normal
completion the accumulated records are sorted by stars descending and
returned. -/
def fetchAllRepos701 (M : ℤ) (o : Oracle) (collect : ℤ → ℤ → Option (List Repo)) :
    ℕ → ℤ → List Repo → Option (List Repo)
  | 0, _, _ => none
  | fuel + 1, cutoff, acc =>
    match shrink701 M o cutoff 11 3000 with
    | Sum.inl _ => none
    | Sum.inr (range, low, high, _) =>
      match collect low high with
      | none => none
      | some items =>
        let acc2 := acc ++ items
        let c2 := cutoff + range
        if M < c2 then some (sortByStarsDesc acc2)
        else fetchAllRepos701 M o collect fuel c2 acc2

/-- The filter predicate as worded by the spec (non-archived, non-disabled,
publicly visible), for comparison with the source's
`!archived && !disabled && visibility === 'public'`. -/
def specKeep (r : RawItem) : Prop :=
  r.archived = false ∧ r.disabled = false ∧ r.visibility = "public"

instance (r : RawItem) : Decidable (specKeep r) := by
  unfold specKeep
  infer_instance

/-- The field projection as worded by the spec (external id as `github_id`,
full name, HTML URL, description, language, fork count, star count, watcher
count, open-issue count, topic set, contributors URL), for comparison with
the source's map. -/
def specProject (r : RawItem) : Repo :=
  { github_id := r.id
    full_name := r.full_name
    html_url := r.html_url
    description := r.description
    language := r.language
    forks := r.forks_count
    stars := r.stargazers_count
    watchers := r.watchers_count
    open_issues := r.open_issues_count
    topics := r.topics
    contributors_url := r.contributors_url }

/-- A concrete raw item used to instantiate theorems on concrete inputs. -/
def sampleItem (n : ℤ) : RawItem :=
  { id := n
    full_name := "owner/repo"
    html_url := "https://example/repo"
    description := none
    language := none
    archived := false
    disabled := false
    visibility := "public"
    forks_count := 1
    stargazers_count := n
    watchers_count := 1
    open_issues_count := 0
    topics := []
    contributors_url := "https://example/contributors" }

/-- A concrete two-page server: page `a` links to page `b`, page `b` is
last. -/
def chainServer : List Char → Option Page := fun s =>
  if s = ['a'] then some ⟨[sampleItem 1], some (renderEntry ['b'] nextName)⟩
  else if s = ['b'] then some ⟨[sampleItem 2], none⟩
  else none

/-- A concrete failing server: page `a` links to page `b`, and fetching
page `b` fails. -/
def failServer : List Char → Option Page := fun s =>
  if s = ['a'] then some ⟨[sampleItem 1], some (renderEntry ['b'] nextName)⟩
  else none

/-- A concrete normalized record with few stars. -/
def sampleRepoA : Repo :=
  { github_id := 1
    full_name := "a/a"
    html_url := ""
    description := none
    language := none
    forks := 0
    stars := 1
    watchers := 0
    open_issues := 0
    topics := []
    contributors_url := "" }

/-- A concrete normalized record with more stars. -/
def sampleRepoB : Repo :=
  { github_id := 2
    full_name := "b/b"
    html_url := ""
    description := none
    language := none
    forks := 0
    stars := 5
    watchers := 0
    open_issues := 0
    topics := []
    contributors_url := "" }

/-! ### Helper lemmas about the Link-header parsing primitives -/

theorem splitOnChar_ne_nil (c : Char) (l : List Char) : splitOnChar c l ≠ [] := by
  cases l with
  | nil => simp [splitOnChar]
  | cons x xs =>
    simp only [splitOnChar]
    cases h : splitOnChar c xs with
    | nil => simp
    | cons h' t => by_cases hx : x = c <;> simp [hx]

theorem splitOnChar_not_mem (c : Char) : ∀ (l : List Char), c ∉ l → splitOnChar c l = [l] := by
  intro l
  induction l with
  | nil => intro _; rfl
  | cons x xs ih =>
    intro h
    have hx : x ≠ c := fun hc => h (hc ▸ List.mem_cons_self x xs)
    have hxs : c ∉ xs := fun hc => h (List.mem_cons_of_mem x hc)
    simp only [splitOnChar, ih hxs]
    simp [hx]

theorem splitOnChar_append (c : Char) (r : List Char) :
    ∀ (l : List Char), c ∉ l → splitOnChar c (l ++ c :: r) = l :: splitOnChar c r := by
  intro l
  induction l with
  | nil =>
    intro _
    simp only [List.nil_append, splitOnChar]
    cases h : splitOnChar c r with
    | nil => exact absurd h (splitOnChar_ne_nil c r)
    | cons h' t => simp
  | cons x xs ih =>
    intro h
    have hx : x ≠ c := fun hc => h (hc ▸ List.mem_cons_self x xs)
    have hxs : c ∉ xs := fun hc => h (List.mem_cons_of_mem x hc)
    simp only [List.cons_append, splitOnChar, List.append_eq]
    rw [ih hxs]
    simp [hx]

theorem trimList_sandwich (x y : Char) (mid : List Char) (hx : isWs x = false)
    (hy : isWs y = false) : trimList (x :: (mid ++ [y])) = x :: (mid ++ [y]) := by
  have h1 : (x :: (mid ++ [y])).dropWhile isWs = x :: (mid ++ [y]) := by
    simp [List.dropWhile_cons, hx]
  have h2 : (x :: (mid ++ [y])).reverse = y :: (mid.reverse ++ [x]) := by
    simp
  have h3 : (y :: (mid.reverse ++ [x])).dropWhile isWs = y :: (mid.reverse ++ [x]) := by
    simp [List.dropWhile_cons, hy]
  unfold trimList
  rw [h1, h2, h3, ← h2, List.reverse_reverse]

theorem trimList_cons_space (s : List Char) : trimList (' ' :: s) = trimList s := by
  unfold trimList
  rw [List.dropWhile_cons]
  simp [isWs]

theorem renderEntry_eq (u r : List Char) :
    renderEntry u r = '<' :: ((u ++ ['>', ';', ' ', 'r', 'e', 'l', '=', '"'] ++ r) ++ ['"']) := by
  simp [renderEntry]

theorem trimList_renderEntry (u r : List Char) :
    trimList (renderEntry u r) = renderEntry u r := by
  rw [renderEntry_eq]
  exact trimList_sandwich '<' '"' _ rfl rfl

theorem relPart_eq (r : List Char) :
    relPart r = 'r' :: ((['e', 'l', '=', '"'] ++ r) ++ ['"']) := by
  simp [relPart]

theorem trimList_relPart (r : List Char) : trimList (relPart r) = relPart r := by
  rw [relPart_eq]
  exact trimList_sandwich 'r' '"' _ rfl rfl

theorem splitOnChar_semi_renderEntry (u r : List Char) (hu : ';' ∉ u) (hr : ';' ∉ r) :
    splitOnChar ';' (renderEntry u r) = [('<' :: u ++ ['>']), ' ' :: relPart r] := by
  have h0 : renderEntry u r = ('<' :: u ++ ['>']) ++ ';' :: (' ' :: relPart r) := by
    simp [renderEntry, relPart]
  have h1 : ';' ∉ ('<' :: u ++ ['>']) := by
    simp only [List.mem_cons, List.mem_append, List.mem_singleton]
    rintro (h | h | h) <;> first | exact hu h | simp_all
  have h2 : ';' ∉ (' ' :: relPart r) := by
    simp only [relPart, List.mem_cons, List.mem_append, List.mem_singleton]
    rintro (h | h | h | h) <;> first | exact hr h | simp_all
  rw [h0, splitOnChar_append ';' _ _ h1, splitOnChar_not_mem ';' _ h2]

theorem comma_not_mem_renderEntry (u r : List Char) (hu : ',' ∉ u) (hr : ',' ∉ r) :
    ',' ∉ renderEntry u r := by
  simp only [renderEntry, List.mem_cons, List.mem_append, List.mem_singleton]
  rintro (h | h | h | h | h | h | h) <;> first | exact hu h | exact hr h | simp_all

theorem relPart_nextName : relPart nextName = relNextChars := rfl

theorem relPart_injective (r s : List Char) (h : relPart r = relPart s) : r = s := by
  simp only [relPart, List.append_assoc] at h
  have h1 := List.append_cancel_left h
  exact List.append_cancel_right h1

theorem findNext_cons_next (normalize : List Char → Option (List Char)) (u w : List Char)
    (rest : List (List Char)) (hu : entryUrlOk u) (hn : normalize u = some w) :
    findNext normalize (renderEntry u nextName :: rest) = Except.ok (some w) := by
  have hsemi : ';' ∉ nextName := by decide
  simp only [findNext, trimList_renderEntry,
    splitOnChar_semi_renderEntry u nextName hu.1 hsemi]
  have hdrop : (('<' :: u ++ ['>']).drop 1).dropLast = u := by
    simp [List.dropLast_concat]
  rw [hdrop, hn, trimList_cons_space, trimList_relPart, relPart_nextName]
  simp

theorem findNext_cons_other (normalize : List Char → Option (List Char)) (u r w : List Char)
    (rest : List (List Char)) (hu : entryUrlOk u) (hr : relNameOk r) (hne : r ≠ nextName)
    (hn : normalize u = some w) :
    findNext normalize (renderEntry u r :: rest) = findNext normalize rest := by
  simp only [findNext, trimList_renderEntry, splitOnChar_semi_renderEntry u r hu.1 hr.1]
  have hdrop : (('<' :: u ++ ['>']).drop 1).dropLast = u := by
    simp [List.dropLast_concat]
  rw [hdrop, hn, trimList_cons_space, trimList_relPart]
  have : relPart r ≠ relNextChars := by
    rw [← relPart_nextName]
    exact fun hc => hne (relPart_injective r nextName hc)
  simp [this]

/-! ### Pagination claims -/

/-- Claim C5: for every simulated chain of N pages linked by Link-header
entries of the form `<url>; rel="name"` in which only the first N-1 pages
carry a `rel="next"` entry, the paginated collector performs exactly N page
fetches, selects at each step the URL between angle brackets of the entry
whose relation is `next`, stops when no such entry is present, and returns
the concatenation of all filtered-and-normalized items in page order. -/
theorem claimC5_pagination_chain (server : List Char → Option Page)
    (normalize : List Char → Option (List Char)) :
    ∀ (pages : List (List RawItem)) (u : List Char) (fuel : ℕ),
      chainOk server normalize u pages → pages.length < fuel →
      fetchRepositoriesWithPagination server normalize fuel (some u)
        = some (Except.ok ((pages.map filterResponseData).flatten, pages.length)) := by
  intro pages
  induction pages with
  | nil => intro u fuel h _; exact absurd h (by simp [chainOk])
  | cons items rest ih =>
    intro u fuel hchain hfuel
    cases fuel with
    | zero => omega
    | succ n =>
      cases rest with
      | nil =>
        rcases hchain with hserver | ⟨u', r, w, hu, hr, hne, hn, hserver⟩
        · simp only [fetchRepositoriesWithPagination, hserver]
          simp [fetchRepositoriesWithPagination]
        · simp only [fetchRepositoriesWithPagination, hserver]
          rw [splitOnChar_not_mem ',' _ (comma_not_mem_renderEntry u' r hu.2 hr.2)]
          rw [findNext_cons_other normalize u' r w [] hu hr hne hn]
          simp [findNext, fetchRepositoriesWithPagination]
      | cons b bs =>
        obtain ⟨u', v, hu, hserver, hn, hchain'⟩ := hchain
        simp only [fetchRepositoriesWithPagination, hserver]
        rw [splitOnChar_not_mem ',' _ (comma_not_mem_renderEntry u' nextName hu.2 (by decide))]
        rw [findNext_cons_next normalize u' v [] hu hn]
        have hlen : (b :: bs).length < n := by
          simp only [List.length_cons] at hfuel ⊢
          omega
        simp only [ih v n hchain' hlen]
        simp

/-- Claim C7: for every page-walk in which some page request fails or fails
to parse, the paginated collector returns no records for that sub-range:
whatever was accumulated up to the failing page is discarded (the error
result carries no records), a failure is signalled, and no partial list of
that sub-range's records is ever returned. -/
theorem claimC7_all_or_nothing (server : List Char → Option Page)
    (normalize : List Char → Option (List Char)) :
    ∀ (pages : List (List RawItem)) (u : List Char) (fuel : ℕ),
      failChain server normalize u pages → pages.length < fuel →
      fetchRepositoriesWithPagination server normalize fuel (some u)
        = some (Except.error ()) := by
  intro pages
  induction pages with
  | nil =>
    intro u fuel h hfuel
    cases fuel with
    | zero => omega
    | succ n =>
      simp only [failChain] at h
      simp [fetchRepositoriesWithPagination, h]
  | cons items rest ih =>
    intro u fuel hchain hfuel
    cases fuel with
    | zero => omega
    | succ n =>
      obtain ⟨u', v, hu, hserver, hn, hchain'⟩ := hchain
      simp only [fetchRepositoriesWithPagination, hserver]
      rw [splitOnChar_not_mem ',' _ (comma_not_mem_renderEntry u' nextName hu.2 (by decide))]
      rw [findNext_cons_next normalize u' v [] hu hn]
      have hlen : rest.length < n := by
        simp only [List.length_cons] at hfuel
        omega
      simp only [ih v n hchain' hlen]

/-! ### Filter, quota and cap-comparison claims -/

/-- Claim C6: normalization emits exactly the non-archived, non-disabled,
publicly visible items, in their original order (the output is the
projection mapped over the order-preserving filter of the input), each
projected to exactly the fixed field set of the spec. -/
theorem claimC6_filter_projection (items : List RawItem) :
    filterResponseData items
      = (items.filter fun r => decide (specKeep r)).map specProject ∧
    ∀ rec : Repo, rec ∈ filterResponseData items ↔
      ∃ raw, raw ∈ items ∧ specKeep raw ∧ rec = specProject raw := by
  have hpred : ∀ r : RawItem,
      (!r.archived && !r.disabled && r.visibility == "public") = decide (specKeep r) := by
    intro r
    by_cases hv : r.visibility = "public" <;>
      cases har : r.archived <;> cases hd : r.disabled <;>
        simp [specKeep, har, hd, hv]
  have heq : filterResponseData items
      = (items.filter fun r => decide (specKeep r)).map specProject := by
    unfold filterResponseData
    rw [List.filter_congr fun x _ => hpred x]
    rfl
  refine ⟨heq, fun rec => ?_⟩
  rw [heq]
  simp only [List.mem_map, List.mem_filter, decide_eq_true_eq]
  constructor
  · rintro ⟨a, ⟨h1, h2⟩, h3⟩
    exact ⟨a, h1, h2, h3.symm⟩
  · rintro ⟨a, h1, h2, h3⟩
    exact ⟨a, ⟨h1, h2⟩, h3.symm⟩

/-- Claim C8: the part_001 rate-limit governor suspends exactly when the
quota is below the threshold of the invoked policy (remaining below 12 for
the soft policy, option 1; remaining exactly 0 for the hard policy, option
2), and then for `reset * 1000 - nowMs` milliseconds, i.e. the reset
timestamp minus the current time; at or above the threshold it does not
suspend at all. -/
theorem claimC8_quota_wait (remaining reset nowMs : ℤ) :
    (remaining < 12 → waitForRateLimitReset remaining reset nowMs 1 = reset * 1000 - nowMs) ∧
    (12 ≤ remaining → waitForRateLimitReset remaining reset nowMs 1 = 0) ∧
    (remaining = 0 → waitForRateLimitReset remaining reset nowMs 2 = reset * 1000 - nowMs) ∧
    (remaining ≠ 0 → waitForRateLimitReset remaining reset nowMs 2 = 0) := by
  unfold waitForRateLimitReset
  refine ⟨fun h => ?_, fun h => ?_, fun h => ?_, fun h => ?_⟩
  · exact if_pos (Or.inl ⟨h, rfl⟩)
  · refine if_neg ?_
    rintro (⟨h1, _⟩ | ⟨_, h2⟩) <;> omega
  · exact if_pos (Or.inr ⟨h, rfl⟩)
  · refine if_neg ?_
    rintro (⟨_, h2⟩ | ⟨h1, _⟩) <;> omega

/-- Witness for C8 with `reset` five seconds after `now`: a quota of 3
before a probe burst suspends for 5000 ms, a quota of 50 does not; a quota
of 0 before a page walk suspends for 5000 ms, a quota of 7 does not. -/
theorem claimC8_quota_wait_witness :
    waitForRateLimitReset 3 5 0 1 = 5 * 1000 - 0 ∧
    waitForRateLimitReset 50 5 0 1 = 0 ∧
    waitForRateLimitReset 0 5 0 2 = 5 * 1000 - 0 ∧
    waitForRateLimitReset 7 5 0 2 = 0 :=
  ⟨(claimC8_quota_wait 3 5 0).1 (by decide),
   (claimC8_quota_wait 50 5 0).2.1 (by decide),
   (claimC8_quota_wait 0 5 0).2.2.1 (by decide),
   (claimC8_quota_wait 7 5 0).2.2.2 (by decide)⟩

/-- Claim C4: in every source variant, a probed total of exactly the cap
(1000), and any total below it (including 0), makes the shrink loop accept
the current candidate range and stop: the comparison against the cap is
inclusive. -/
theorem claimC4_cap_inclusive (M : ℤ) (o : Oracle) (cutoff range : ℤ) (fuel : ℕ) (t : ℤ)
    (ht : t ≤ 1000) :
    (o cutoff (frsHigh cutoff range) = some t →
      shrinkFRS o cutoff (fuel + 1) range = Sum.inr (range, cutoff, frsHigh cutoff range)) ∧
    (o cutoff (clampedHigh M cutoff range) = some t →
      shrink700 M o cutoff (fuel + 1) range
        = Sum.inr (range, cutoff, clampedHigh M cutoff range, ExitKind.accepted)) ∧
    (o cutoff (clampedHigh M cutoff range) = some t →
      shrink701 M o cutoff (fuel + 1) range
        = Sum.inr (range, cutoff, clampedHigh M cutoff range, ExitKind.accepted)) := by
  refine ⟨fun h => ?_, fun h => ?_, fun h => ?_⟩ <;>
    simp [shrinkFRS, shrink700, shrink701, h, ht]

/-- Witness for C4 at a total of exactly 1000 (the boundary): all three
variants accept the initial candidate immediately. -/
theorem claimC4_cap_inclusive_witness :
    shrinkFRS (fun _ _ => some 1000) 5000 1 1000 = Sum.inr (1000, 5000, frsHigh 5000 1000) ∧
    shrink700 500000 (fun _ _ => some 1000) 3500 1 3000
      = Sum.inr (3000, 3500, clampedHigh 500000 3500 3000, ExitKind.accepted) ∧
    shrink701 364000 (fun _ _ => some 1000) 3499 1 3000
      = Sum.inr (3000, 3499, clampedHigh 364000 3499 3000, ExitKind.accepted) :=
  ⟨(claimC4_cap_inclusive 6000 (fun _ _ => some 1000) 5000 1000 0 1000 (by decide)).1 rfl,
   (claimC4_cap_inclusive 500000 (fun _ _ => some 1000) 3500 3000 0 1000 (by decide)).2.1 rfl,
   (claimC4_cap_inclusive 364000 (fun _ _ => some 1000) 3499 3000 0 1000 (by decide)).2.2 rfl⟩

/-- Counterexample to C3: in part_001's do-while loop, an undefined total
does NOT cause another shrink-and-retry iteration.  With an oracle that
always reports an undefined total, the loop finishes within its very first
iteration (fuel 1 suffices, and more fuel gives the same result): it
shrinks once and exits through the while-condition
(`undefined > 1000` is false in JS), returning the shrunken, never-probed
range `[3499, 6198]` as the plan. -/
theorem claimC3_counterexample :
    shrink701 364000 (fun _ _ => none) 3499 1 3000
      = Sum.inr (2700, 3499, 6198, ExitKind.condExit) ∧
    shrink701 364000 (fun _ _ => none) 3499 100 3000
      = Sum.inr (2700, 3499, 6198, ExitKind.condExit) :=
  ⟨rfl, rfl⟩

/-- Claim C3 (amended): in the while-loop variant `fetch-repos-stars.js`
an undefined total is treated as still-too-large: the loop shrinks the step
and retries, and it can only ever exit by a probe that reports a defined
total at most the cap (an undefined total is never a success).  In
part_001's do-while variant an undefined total is likewise never accepted
as a fit, but it causes one shrink followed by loop exit, not a retry. -/
theorem claimC3_amended :
    (∀ (o : Oracle) (cutoff range : ℤ) (fuel : ℕ),
      o cutoff (frsHigh cutoff range) = none →
        shrinkFRS o cutoff (fuel + 1) range = shrinkFRS o cutoff fuel (range - 100)) ∧
    (∀ (o : Oracle) (cutoff : ℤ) (fuel : ℕ) (range r l h : ℤ),
      shrinkFRS o cutoff fuel range = Sum.inr (r, l, h) →
        ∃ t, o l h = some t ∧ t ≤ 1000) := by
  constructor
  · intro o cutoff range fuel h
    simp [shrinkFRS, h]
  · intro o cutoff fuel
    induction fuel with
    | zero => intro range r l h hr; simp [shrinkFRS] at hr
    | succ n ih =>
      intro range r l h hr
      simp only [shrinkFRS] at hr
      cases ho : o cutoff (frsHigh cutoff range) <;> simp only [ho] at hr
      · exact ih _ _ _ _ hr
      next t =>
        by_cases ht : t ≤ 1000
        · rw [if_pos ht] at hr
          simp only [Sum.inr.injEq, Prod.mk.injEq] at hr
          obtain ⟨h1, h2, h3⟩ := hr
          subst h2
          subst h3
          exact ⟨t, ho, ht⟩
        · rw [if_neg ht] at hr
          exact ih _ _ _ _ hr

/-- Witness for C3 (amended) at concrete inputs: with an oracle that always
reports undefined, one iteration of the `fetch-repos-stars.js` loop shrinks
1000 to 900 and retries; and the accept of a loop exiting with total 7 was
a defined total at most 1000. -/
theorem claimC3_amended_witness :
    shrinkFRS (fun _ _ => none) 5000 4 1000 = shrinkFRS (fun _ _ => none) 5000 3 900 ∧
    ∃ t, (fun _ _ => some (7 : ℤ)) (5000 : ℤ) (5999 : ℤ) = some t ∧ t ≤ 1000 :=
  ⟨claimC3_amended.1 (fun _ _ => none) 5000 1000 3 rfl,
   claimC3_amended.2 (fun _ _ => some 7) 5000 1 1000 1000 5000 5999 rfl⟩

/-! ### Shrink-loop termination and invariant claims -/

theorem shrink701_succ (M : ℤ) (o : Oracle) (cutoff : ℤ) (fuel : ℕ) (range : ℤ) :
    shrink701 M o cutoff (fuel + 1) range =
      match o cutoff (clampedHigh M cutoff range) with
      | some t =>
        if t = 0 ∨ t ≤ 1000 then
          Sum.inr (range, cutoff, clampedHigh M cutoff range, ExitKind.accepted)
        else
          if cutoff = clampedHigh M cutoff (range - 300) then
            Sum.inr (range - 300, cutoff, clampedHigh M cutoff (range - 300), ExitKind.guardStop)
          else shrink701 M o cutoff fuel (range - 300)
      | none =>
        if cutoff = clampedHigh M cutoff (range - 300) then
          Sum.inr (range - 300, cutoff, clampedHigh M cutoff (range - 300), ExitKind.guardStop)
        else
          Sum.inr (range - 300, cutoff, clampedHigh M cutoff (range - 300), ExitKind.condExit) :=
  rfl

theorem shrink701_exits (M : ℤ) (o : Oracle) (cutoff : ℤ) :
    ∀ (fuel : ℕ) (range : ℤ), range ≤ 1 + 300 * fuel →
      (shrink701 M o cutoff (fuel + 1) range).isRight = true := by
  intro fuel
  induction fuel with
  | zero =>
    intro range hr
    have hguard : cutoff = clampedHigh M cutoff (range - 300) := by
      simp only [clampedHigh]
      omega
    rw [shrink701_succ]
    cases ho : o cutoff (clampedHigh M cutoff range) with
    | none =>
      simp only [ho]
      split <;> simp
    | some t =>
      simp only [ho]
      by_cases hacc : t = 0 ∨ t ≤ 1000
      · simp [hacc]
      · rw [if_neg hacc, if_pos hguard]
        simp
  | succ n ih =>
    intro range hr
    have hn : range - 300 ≤ 1 + 300 * n := by omega
    rw [shrink701_succ]
    cases ho : o cutoff (clampedHigh M cutoff range) with
    | none =>
      simp only [ho]
      split <;> simp
    | some t =>
      simp only [ho]
      by_cases hacc : t = 0 ∨ t ≤ 1000
      · simp [hacc]
      · rw [if_neg hacc]
        split
        · simp
        · exact ih (range - 300) hn

/-- Claim C2 (amended): the shrink loop of the part_000/part_001 form,
which carries the pin guard, terminates for every oracle (including ones
whose total never drops to the cap and ones reporting undefined totals)
within 11 iterations from the initial step of 3000, without looping forever:
it always reaches one of its three exits.  The `fetch-repos-stars.js`
variant, which lacks the guard, does not have this property (see the
counterexample). -/
theorem claimC2_amended (M : ℤ) (o : Oracle) (cutoff : ℤ) :
    ∃ range low high k, shrink701 M o cutoff 11 3000 = Sum.inr (range, low, high, k) := by
  have h := shrink701_exits M o cutoff 10 3000 (by omega)
  rw [Sum.isRight_iff] at h
  obtain ⟨⟨range, low, high, k⟩, hy⟩ := h
  exact ⟨range, low, high, k, hy⟩

/-- Counterexample to C2: the `fetch-repos-stars.js` shrink loop (a cited
source of the claim) does not stop when the step decrements to zero or
negative.  With an oracle that always reports 2000 matches, after 11
iterations from the initial step 1000 the loop is still running and the
step has underflowed to -100; after 41 iterations it is still running at
step -3100 — it loops forever and underflows the step. -/
theorem claimC2_counterexample :
    shrinkFRS (fun _ _ => some 2000) 5000 11 1000 = Sum.inl (-100) ∧
    shrinkFRS (fun _ _ => some 2000) 5000 41 1000 = Sum.inl (-3100) :=
  ⟨rfl, rfl⟩

theorem shrink701_shape (M : ℤ) (o : Oracle) (cutoff : ℤ) :
    ∀ (fuel : ℕ) (range r l h : ℤ) (k : ExitKind),
      shrink701 M o cutoff fuel range = Sum.inr (r, l, h, k) →
        l = cutoff ∧ h = clampedHigh M cutoff r := by
  intro fuel
  induction fuel with
  | zero => intro range r l h k hr; simp [shrink701] at hr
  | succ n ih =>
    intro range r l h k hr
    rw [shrink701_succ] at hr
    cases ho : o cutoff (clampedHigh M cutoff range) <;> simp only [ho] at hr
    · split at hr <;>
        · simp only [Sum.inr.injEq, Prod.mk.injEq] at hr
          obtain ⟨h1, h2, h3, _⟩ := hr
          subst h1
          exact ⟨h2.symm, h3.symm⟩
    next t =>
      split at hr
      · simp only [Sum.inr.injEq, Prod.mk.injEq] at hr
        obtain ⟨h1, h2, h3, _⟩ := hr
        subst h1
        exact ⟨h2.symm, h3.symm⟩
      · split at hr
        · simp only [Sum.inr.injEq, Prod.mk.injEq] at hr
          obtain ⟨h1, h2, h3, _⟩ := hr
          subst h1
          exact ⟨h2.symm, h3.symm⟩
        · exact ih _ _ _ _ _ hr

/-- Claim C9 (amended): in the part_000/part_001 variants, whose candidate
high bound is `max(min(STAR_MAX, cutoff + range - 1), cutoff)`, every
candidate range computed by the planner (at any cursor and any number of
shrink iterations, i.e. for every step value) satisfies `low <= high`, and
`high` never exceeds the ceiling whenever the cursor is at most the
ceiling; consequently every range accepted over a whole part_001 run
started at a floor at most the ceiling satisfies the full ScalarRange
invariant.  The `fetch-repos-stars.js` variant violates `low <= high` (see
the counterexample). -/
theorem claimC9_amended (M : ℤ) (o : Oracle) :
    (∀ cutoff range : ℤ, cutoff ≤ clampedHigh M cutoff range ∧
      (cutoff ≤ M → clampedHigh M cutoff range ≤ M)) ∧
    (∀ (fuel : ℕ) (F : ℤ), F ≤ M →
      ∀ p ∈ (runRanges701 M o fuel F).1, p.1 ≤ p.2 ∧ p.2 ≤ M) := by
  have hbase : ∀ cutoff range : ℤ, cutoff ≤ clampedHigh M cutoff range ∧
      (cutoff ≤ M → clampedHigh M cutoff range ≤ M) := by
    intro cutoff range
    constructor
    · simp only [clampedHigh]; omega
    · intro h; simp only [clampedHigh]; omega
  refine ⟨hbase, ?_⟩
  intro fuel
  induction fuel with
  | zero => intro F hF p hp; simp [runRanges701] at hp
  | succ n ih =>
    intro F hF p hp
    simp only [runRanges701] at hp
    cases hs : shrink701 M o F 11 3000 <;> simp only [hs] at hp
    · simp at hp
    next val =>
      obtain ⟨r, l, h, k⟩ := val
      obtain ⟨hl, hh⟩ := shrink701_shape M o F 11 3000 r l h k hs
      rw [hl, hh] at hp
      by_cases hM : M < F + r
      · rw [if_pos hM] at hp
        simp only [List.mem_singleton] at hp
        subst hp
        exact ⟨(hbase F r).1, (hbase F r).2 hF⟩
      · rw [if_neg hM] at hp
        simp only [List.mem_cons] at hp
        rcases hp with rfl | hp'
        · exact ⟨(hbase F r).1, (hbase F r).2 hF⟩
        · exact ih (F + r) (by omega) p hp'

/-- Witness for C9 (amended) at concrete inputs: the first candidate of a
part_001 run at cursor 3499 with ceiling 364000, and the single accepted
range of a one-iteration run with an all-zero-total oracle. -/
theorem claimC9_amended_witness :
    ((3499 : ℤ) ≤ clampedHigh 364000 3499 3000 ∧ clampedHigh 364000 3499 3000 ≤ 364000) ∧
    ((3499 : ℤ) ≤ 6498 ∧ (6498 : ℤ) ≤ 364000) :=
  ⟨⟨((claimC9_amended 364000 (fun _ _ => some 0)).1 3499 3000).1,
    ((claimC9_amended 364000 (fun _ _ => some 0)).1 3499 3000).2 (by decide)⟩,
   (claimC9_amended 364000 (fun _ _ => some 0)).2 1 3499 (by decide) (3499, 6498) (by decide)⟩

/-- Counterexample to C9: in `fetch-repos-stars.js` (a cited source of the
claim) the candidate computed after ten shrink iterations at cursor 5000
under an oracle always reporting 2000 matches has step 0, so its high bound
`min(6000, 5000 + 0 - 1) = 4999` is below its low bound 5000, violating
`low <= high`; the loop does probe that candidate (iteration 11 runs and
shrinks further). -/
theorem claimC9_counterexample :
    shrinkFRS (fun _ _ => some 2000) 5000 10 1000 = Sum.inl 0 ∧
    shrinkFRS (fun _ _ => some 2000) 5000 11 1000 = Sum.inl (-100) ∧
    frsHigh 5000 0 = 4999 ∧ ¬ ((5000 : ℤ) ≤ frsHigh 5000 0) :=
  ⟨rfl, rfl, rfl, by decide⟩

/-! ### Sorting claim -/

theorem sortByStarsDesc_pairwise (l : List Repo) :
    List.Pairwise (fun a b : Repo => b.stars ≤ a.stars) (sortByStarsDesc l) := by
  have h := @List.sorted_mergeSort Repo (fun a b : Repo => decide (b.stars ≤ a.stars))
    (fun a b c hab hbc => by
      simp only [decide_eq_true_eq] at hab hbc ⊢
      omega)
    (fun a b => by
      simp only [Bool.or_eq_true, decide_eq_true_eq]
      omega)
    l
  exact h.imp fun hab => by simpa using hab

/-- Claim C10: whenever part_001's `fetchAllRepos` returns a result set
(for any ceiling, any probe oracle, any per-range collector and any
delivery order of sub-range records), that result is the accumulated
records sorted in non-increasing order of star count: the comparator
`(a, b) => b.stars - a.stars` sorts descending by stars before the data is
handed to the persistence boundary. -/
theorem claimC10_sorted_descending (M : ℤ) (o : Oracle)
    (collect : ℤ → ℤ → Option (List Repo)) :
    ∀ (fuel : ℕ) (cutoff : ℤ) (acc l : List Repo),
      fetchAllRepos701 M o collect fuel cutoff acc = some l →
        List.Pairwise (fun a b : Repo => b.stars ≤ a.stars) l ∧
        ∃ acc2 : List Repo, l = sortByStarsDesc acc2 ∧ l.Perm acc2 := by
  intro fuel
  induction fuel with
  | zero => intro cutoff acc l h; simp [fetchAllRepos701] at h
  | succ n ih =>
    intro cutoff acc l h
    simp only [fetchAllRepos701] at h
    cases hs : shrink701 M o cutoff 11 3000 <;> simp only [hs] at h
    · simp at h
    next val =>
      obtain ⟨r, low, high, k⟩ := val
      cases hc : collect low high <;> simp only [hc] at h
      · simp at h
      next items =>
        by_cases hM : M < cutoff + r
        · rw [if_pos hM] at h
          have hl : l = sortByStarsDesc (acc ++ items) := (Option.some.inj h).symm
          subst hl
          exact ⟨sortByStarsDesc_pairwise _,
            acc ++ items, rfl, List.mergeSort_perm _ _⟩
        · rw [if_neg hM] at h
          exact ih _ _ _ h

/-- Witness for C10 at concrete inputs: a one-iteration run whose collector
delivers the records in ascending star order returns them sorted
descending. -/
theorem claimC10_sorted_descending_witness :
    List.Pairwise (fun a b : Repo => b.stars ≤ a.stars)
      (sortByStarsDesc ([] ++ [sampleRepoA, sampleRepoB])) :=
  (claimC10_sorted_descending 3499 (fun _ _ => some 0)
    (fun _ _ => some [sampleRepoA, sampleRepoB]) 1 3499 []
    (sortByStarsDesc ([] ++ [sampleRepoA, sampleRepoB])) rfl).1

/-- Witness for C5: a concrete two-page chain is walked in exactly two
fetches and returns both pages' filtered items in order. -/
theorem claimC5_pagination_chain_witness :
    fetchRepositoriesWithPagination chainServer (fun s => some s) 3 (some ['a'])
      = some (Except.ok
          (([[sampleItem 1], [sampleItem 2]].map filterResponseData).flatten, 2)) :=
  claimC5_pagination_chain chainServer (fun s => some s) [[sampleItem 1], [sampleItem 2]]
    ['a'] 3
    ⟨['b'], ['b'], ⟨by decide, by decide⟩, rfl, rfl, Or.inl rfl⟩
    (by decide)

/-- Witness for C7: a chain whose second page fails to fetch yields the
error result, with the first page's records discarded. -/
theorem claimC7_all_or_nothing_witness :
    fetchRepositoriesWithPagination failServer (fun s => some s) 2 (some ['a'])
      = some (Except.error ()) :=
  claimC7_all_or_nothing failServer (fun s => some s) [[sampleItem 1]] ['a'] 2
    ⟨['b'], ['b'], ⟨by decide, by decide⟩, rfl, rfl, rfl⟩ (by decide)

/-! ### Partition coverage claim -/

theorem countP_range_cons (x low high : ℤ) (l : List (ℤ × ℤ)) :
    (((low, high) :: l).countP fun p => decide (p.1 ≤ x ∧ x ≤ p.2))
      = ((l.countP fun p => decide (p.1 ≤ x ∧ x ≤ p.2))
          + if low ≤ x ∧ x ≤ high then 1 else 0) := by
  rw [List.countP_cons]
  by_cases hc : low ≤ x ∧ x ≤ high
  · rw [if_pos hc,
      if_pos (show (fun p : ℤ × ℤ => decide (p.1 ≤ x ∧ x ≤ p.2)) (low, high) = true from
        decide_eq_true hc)]
  · rw [if_neg hc,
      if_neg (show ¬ (fun p : ℤ × ℤ => decide (p.1 ≤ x ∧ x ≤ p.2)) (low, high) = true from
        fun hb => hc (of_decide_eq_true hb))]

/-- Claim C1 (amended): provided every planner invocation over the run
accepts a positive step (the oracle lets each shrink loop exit with step at
least 1), the accepted ranges of the part_001 outer loop exactly cover
[F, M]: the run reaches its break with the cursor strictly beyond the
ceiling, every integer of [F, M] lies in exactly one accepted range, and no
integer below the floor is covered.  Without the positive-step hypothesis
the claim fails (see the counterexample). -/
theorem claimC1_amended (M : ℤ) (o : Oracle) (F : ℤ)
    (hpos : ∀ c : ℤ, F ≤ c → c ≤ M →
      ∃ r l h k, shrink701 M o c 11 3000 = Sum.inr (r, l, h, k) ∧ 1 ≤ r) :
    ∀ (fuel : ℕ) (c : ℤ), F ≤ c → c ≤ M → (M - c).toNat < fuel →
      (runRanges701 M o fuel c).2.2 = true ∧
      M < (runRanges701 M o fuel c).2.1 ∧
      (∀ x : ℤ, c ≤ x → x ≤ M →
        ((runRanges701 M o fuel c).1.countP fun p => decide (p.1 ≤ x ∧ x ≤ p.2)) = 1) ∧
      (∀ x : ℤ, x < c →
        ((runRanges701 M o fuel c).1.countP fun p => decide (p.1 ≤ x ∧ x ≤ p.2)) = 0) := by
  intro fuel
  induction fuel with
  | zero => intro c hFc hcM hfuel; omega
  | succ n ih =>
    intro c hFc hcM hfuel
    obtain ⟨r, l, h, k, hs, hr⟩ := hpos c hFc hcM
    obtain ⟨hl, hh⟩ := shrink701_shape M o c 11 3000 r l h k hs
    rw [hl, hh] at hs
    simp only [runRanges701, hs]
    by_cases hM : M < c + r
    · rw [if_pos hM]
      have hH : clampedHigh M c r = M := by
        simp only [clampedHigh]
        omega
      refine ⟨rfl, hM, ?_, ?_⟩
      · intro x hx1 hx2
        rw [countP_range_cons, List.countP_nil,
          if_pos ⟨hx1, by rw [hH]; omega⟩]
      · intro x hx
        rw [countP_range_cons, List.countP_nil,
          if_neg (by rintro ⟨h1, _⟩; omega)]
    · rw [if_neg hM]
      have hH : clampedHigh M c r = c + r - 1 := by
        simp only [clampedHigh]
        omega
      obtain ⟨ihdone, ihfin, ihcount1, ihcount0⟩ :=
        ih (c + r) (by omega) (by omega) (by omega)
      refine ⟨ihdone, ihfin, ?_, ?_⟩
      · intro x hx1 hx2
        by_cases hx3 : x ≤ c + r - 1
        · rw [countP_range_cons, ihcount0 x (by omega),
            if_pos ⟨hx1, by rw [hH]; omega⟩]
        · rw [countP_range_cons, ihcount1 x (by omega) hx2,
            if_neg (by rw [hH]; rintro ⟨_, hx4⟩; omega)]
      · intro x hx
        rw [countP_range_cons, ihcount0 x (by omega),
          if_neg (by rintro ⟨h1, _⟩; omega)]

/-- Counterexample to C1: with probe responses that always report 2000
matches, the part_001 planner at floor 3499 (ceiling 364000) shrinks to
step 0 and accepts the degenerate range [3499, 3499]; the cursor does not
advance, so after two outer iterations the accepted ranges are
[3499, 3499], [3499, 3499]: the integer 3499 lies in two accepted ranges
(an overlap, counted twice below), no other point of [3499, 364000] is
covered, and the outer loop has not stopped (the cursor never exceeds the
ceiling). -/
theorem claimC1_counterexample :
    runRanges701 364000 (fun _ _ => some 2000) 2 3499
      = ([(3499, 3499), (3499, 3499)], 3499, false) ∧
    ((runRanges701 364000 (fun _ _ => some 2000) 2 3499).1.countP
      fun p => decide (p.1 ≤ (3499 : ℤ) ∧ (3499 : ℤ) ≤ p.2)) = 2 :=
  ⟨rfl, rfl⟩

/-- Witness for C1 (amended) at concrete inputs: floor = ceiling = 3499
with an all-zero-total oracle; the single accepted range covers the single
point of the domain exactly once and the loop stops. -/
theorem claimC1_amended_witness :
    (runRanges701 3499 (fun _ _ => some 0) 1 3499).2.2 = true ∧
    (3499 : ℤ) < (runRanges701 3499 (fun _ _ => some 0) 1 3499).2.1 ∧
    ((runRanges701 3499 (fun _ _ => some 0) 1 3499).1.countP
      fun p => decide (p.1 ≤ (3499 : ℤ) ∧ (3499 : ℤ) ≤ p.2)) = 1 := by
  have h := claimC1_amended 3499 (fun _ _ => some 0) 3499
    (fun c h1 h2 => by
      have hc : c = 3499 := le_antisymm h2 h1
      subst hc
      exact ⟨3000, 3499, 3499, ExitKind.accepted, by decide, by decide⟩)
    1 3499 (le_refl _) (le_refl _) (by decide)
  exact ⟨h.1, h.2.1, h.2.2.1 3499 (le_refl _) (le_refl _)⟩

end GithubStars
